import Mathlib

/-!
Shallow embedding of the cgol crate (Conway's Game of Life on a toroidal
grid) and proofs about its specification.

Modelling conventions:
- Rust usize values are modelled as Nat; the usize range bound appears
  explicitly where the code performs a checked multiplication.
- A Rust panic is modelled as the none case of an Option (or the error
  case of an Except when the claim is about the panic payload).
- The unchecked buffer accesses inside Game.tick are modelled by
  Option-returning list lookups, so that an out-of-bounds access would
  surface as none rather than being masked by a default value.
- The u8 accumulator of the neighbor fold is modelled with an explicit
  wrap at 256.
-/

namespace Cgol

/-- The cell enum of the crate: a cell is Dead or Alive. -/
inductive Cell where
  | Dead : Cell
  | Alive : Cell
deriving DecidableEq, Repr

namespace Cell

/-- Rust cast of a cell to an unsigned integer: Dead is 0, Alive is 1. -/
def toNat : Cell → Nat
  | Dead => 0
  | Alive => 1

/-- Rust cast of a cell to a signed integer: Dead is 0, Alive is 1. -/
def toInt : Cell → Int
  | Dead => 0
  | Alive => 1

/-- From an unsigned integer, as generated by the integers macro:
Alive when the value is greater than 0, Dead otherwise. -/
def fromNat (i : Nat) : Cell :=
  if i > 0 then Alive else Dead

/-- From a signed integer, as generated by the integers macro:
Alive when the value is greater than 0, Dead otherwise. -/
def fromInt (i : Int) : Cell :=
  if i > 0 then Alive else Dead

/-- From a boolean: Alive when true, Dead when false. -/
def fromBool (b : Bool) : Cell :=
  if b then Alive else Dead

/-- The Not operator on cells: flips the state. -/
def invertCell : Cell → Cell
  | Alive => Dead
  | Dead => Alive

end Cell

/-- Maximum usize value (the embedding models a 64-bit platform). -/
def usizeMax : Nat := 2 ^ 64 - 1

/-- Model of usize checked multiplication: none on overflow. -/
def checkedMul (a b : Nat) : Option Nat :=
  if a * b ≤ usizeMax then some (a * b) else none

/-- The Game struct: primary buffer, scratch buffer, and dimensions. -/
@[ext]
structure Game where
  cells : List Cell
  next : List Cell
  width : Nat
  height : Nat
deriving DecidableEq, Repr

namespace Game

/-- Constructor Game.new: panics (none) when width is 0, height is 0, or
the product width * height overflows usize; otherwise both buffers are
allocated with area cells, all Dead. -/
def new (width height : Nat) : Option Game :=
  if width = 0 then none
  else if height = 0 then none
  else
    match checkedMul width height with
    | none => none
    | some area =>
      let cells := List.replicate area Cell.Dead
      let next := cells
      some { width := width, height := height, cells := cells, next := next }

end Game

/-- Wrap one step backwards within the closed range from 0 to max:
0 wraps to max, otherwise decrement. Mirrors the up and left computations
in Game.tick. -/
def wrapDec (i max : Nat) : Nat :=
  if i = 0 then max else i - 1

/-- Wrap one step forwards within the closed range from 0 to max:
max wraps to 0, otherwise increment. Mirrors the down and right
computations in Game.tick. -/
def wrapInc (i max : Nat) : Nat :=
  if i = max then 0 else i + 1

/-- The eight neighbor indexes computed by Game.tick for the cell at
(row, col), in source order: top left, top, top right, right,
bottom right, bottom, bottom left, left. The row offsets up, rowIx and
down are indexes of the first cell of the wrapped rows. -/
def neighborIndexes (width height row col : Nat) : List Nat :=
  let rowMax := height - 1
  let colMax := width - 1
  let up := wrapDec row rowMax * width
  let rowIx := row * width
  let down := wrapInc row rowMax * width
  let left := wrapDec col colMax
  let right := wrapInc col colMax
  [up + left, up + col, up + right, rowIx + right, down + right,
   down + col, down + left, rowIx + left]

/-- Wrapping u8 addition, the accumulator type of the neighbor fold. -/
def addU8 (a b : Nat) : Nat := (a + b) % 256

/-- Sequence an Option-returning function over a list, failing when any
element fails; models a run of get_unchecked accesses. -/
def mapO (f : α → Option β) : List α → Option (List β)
  | [] => some []
  | x :: xs =>
    match f x, mapO f xs with
    | some y, some ys => some (y :: ys)
    | _, _ => none

/-- One iteration of the inner loop of Game.tick: look up the eight
neighbors (unchecked accesses modelled as Option lookups), fold their
u8 casts, and apply the rule: 3 gives Alive, 2 keeps the current cell
(read from the prior generation), anything else gives Dead. -/
def stepCell (cells : List Cell) (width height row col curIdx : Nat) :
    Option Cell :=
  match mapO (fun i => cells[i]?) (neighborIndexes width height row col) with
  | none => none
  | some vals =>
    match vals.foldl (fun acc c => addU8 acc c.toNat) 0 with
    | 3 => some Cell.Alive
    | 2 => cells[curIdx]?
    | _ => some Cell.Dead

namespace Game

/-- Game.tick. First the defensive invariant re-check (a violation
panics, modelled as none). Then the nested row and col loops, which
enumerate current_index from 0 to area - 1 with row = idx / width and
col = idx % width, writing each new cell into the scratch buffer; a
violated unchecked access also surfaces as none. Finally the publish
step copies scratch over the primary buffer, leaving both buffers equal
to the new generation. -/
def tick (g : Game) : Option Game :=
  let area := g.width * g.height
  if g.cells.length ≠ area ∨ g.next.length ≠ area then none
  else if g.width = 0 ∨ g.height = 0 then none
  else
    match mapO
        (fun i => stepCell g.cells g.width g.height (i / g.width) (i % g.width) i)
        (List.range area) with
    | none => none
    | some newCells =>
      some { g with cells := newCells, next := newCells }

/-- The buffer-length and dimension invariant of the Game struct. -/
def Invariant (g : Game) : Prop :=
  g.cells.length = g.width * g.height ∧
  g.next.length = g.width * g.height ∧
  0 < g.width ∧ 0 < g.height

instance (g : Game) : Decidable g.Invariant := by
  unfold Invariant; infer_instance

/-- Accessor width. -/
def widthFn (g : Game) : Nat := g.width

/-- Accessor height. -/
def heightFn (g : Game) : Nat := g.height

/-- Accessor area: returns the length of the primary buffer. -/
def area (g : Game) : Nat := g.cells.length

/-- Game.get: a bounds check against height and width, then a
(panicking, hence inner Option) vector access at row * width + col.
The outer Option models the panic; the inner Option is the return
value of the Rust function. -/
def get (g : Game) (row col : Nat) : Option (Option Cell) :=
  if row < g.height ∧ col < g.width then
    match g.cells[row * g.width + col]? with
    | some c => some (some c)
    | none => none
  else some none

/-- Game.get_mut resolves the same location as Game.get; this is the
cell the returned mutable reference points at. -/
def get_mut (g : Game) (row col : Nat) : Option (Option Cell) :=
  if row < g.height ∧ col < g.width then
    match g.cells[row * g.width + col]? with
    | some c => some (some c)
    | none => none
  else some none

/-- Writing a value through the reference returned by Game.get_mut.
When get_mut returns None no write happens and the game is unchanged;
a panic of the underlying vector access is the outer none. -/
def get_mut_write (g : Game) (row col : Nat) (v : Cell) : Option Game :=
  if row < g.height ∧ col < g.width then
    if row * g.width + col < g.cells.length then
      some { g with cells := g.cells.set (row * g.width + col) v }
    else none
  else some g

/-- Payload of the out-of-bounds panics raised through the panic
module: the dimension that was violated, the offending index, and the
bound. The bufferOob case stands for a panic of the underlying vector
indexing itself (impossible under the invariant). -/
inductive IndexPanic where
  | widthOob (index bound : Nat)
  | heightOob (index bound : Nat)
  | bufferOob
deriving DecidableEq, Repr

/-- The Index implementation for tuples. The source destructures the
tuple pattern as (col, row): the FIRST component is used as the column
and the SECOND as the row. The row is checked against height first,
then the column against width, and the cell at row * width + col is
returned. -/
def indexTuple (g : Game) (t : Nat × Nat) : Except IndexPanic Cell :=
  let col := t.1
  let row := t.2
  if row ≥ g.height then .error (.heightOob row g.height)
  else if col ≥ g.width then .error (.widthOob col g.width)
  else
    match g.cells[row * g.width + col]? with
    | some c => .ok c
    | none => .error .bufferOob

/-- Writing through the IndexMut implementation for tuples: same
destructuring and checks as indexTuple, then the cell at
row * width + col is replaced. -/
def indexTuple_set (g : Game) (t : Nat × Nat) (v : Cell) :
    Except IndexPanic Game :=
  let col := t.1
  let row := t.2
  if row ≥ g.height then .error (.heightOob row g.height)
  else if col ≥ g.width then .error (.widthOob col g.width)
  else
    if row * g.width + col < g.cells.length then
      .ok { g with cells := g.cells.set (row * g.width + col) v }
    else .error .bufferOob

/-- Game.get_row: panics (none) when row is out of bounds, otherwise
returns the slice of the primary buffer from row * width to
row * width + width (the slice operation itself panics when the end
exceeds the buffer length). -/
def get_row (g : Game) (row : Nat) : Option (List Cell) :=
  if row ≥ g.height then none
  else
    let b := row * g.width
    if b + g.width ≤ g.cells.length then
      some ((g.cells.drop b).take g.width)
    else none

/-- Game.row: the iterator over the slice returned by get_row, yielding
its cells by value in order. -/
def row (g : Game) (r : Nat) : Option (List Cell) :=
  g.get_row r

/-- Overwriting cells through the Game.get_row_mut slice (and hence
through the Game.row_mut iterator): each cell of the row is replaced by
a function of its position in the row and its old value. -/
def get_row_mut_map (g : Game) (row : Nat) (f : Nat → Cell → Cell) :
    Option Game :=
  if row ≥ g.height then none
  else
    let b := row * g.width
    if b + g.width ≤ g.cells.length then
      some { g with cells :=
        g.cells.take b ++ ((g.cells.drop b).take g.width).mapIdx f
          ++ g.cells.drop (b + g.width) }
    else none

end Game

/-- Model of the StepBy iterator adaptor with step k + 1: yields the
head, then recurses after dropping k further elements. -/
def stepByAux (k : Nat) : List α → List α
  | [] => []
  | x :: xs => x :: stepByAux k (xs.drop k)
termination_by l => l.length
decreasing_by
  simp only [List.length_drop, List.length_cons]
  omega

namespace Game

/-- Game.col: panics (none) when col is out of bounds; otherwise the
iterator skips col cells and then strides through the flat buffer with
step width. -/
def col (g : Game) (c : Nat) : Option (List Cell) :=
  if c ≥ g.width then none
  else some (stepByAux (g.width - 1) (g.cells.drop c))

/-- Overwriting cells through the Game.col_mut iterator: the cells at
flat indexes c, c + width, c + 2 * width, ... are each replaced by a
function of their position in the column and their old value. -/
def col_mut_map (g : Game) (c : Nat) (f : Nat → Cell → Cell) :
    Option Game :=
  if c ≥ g.width then none
  else
    let newCells := g.cells.mapIdx (fun i cell =>
      if i ≥ c ∧ (i - c) % g.width = 0 then f ((i - c) / g.width) cell
      else cell)
    some { g with cells := newCells }

/-- Game.clear: fills the primary buffer with Dead. -/
def clear (g : Game) : Game :=
  { g with cells := g.cells.map (fun _ => Cell.Dead) }

/-- Game.invert: applies the Not operator to every cell in place. -/
def invert (g : Game) : Game :=
  { g with cells := g.cells.map Cell.invertCell }

/-- Game.all_dead. -/
def all_dead (g : Game) : Bool :=
  g.cells.all (fun c => c = Cell.Dead)

/-- Game.all_alive. -/
def all_alive (g : Game) : Bool :=
  g.cells.all (fun c => c = Cell.Alive)

/-- Game.fill_random, with the external Bernoulli sampler abstracted as
a boolean stream: cell i is assigned Cell::from(sample i as u8). The
validation of the chance argument happens inside the external rand
crate and is not modelled. -/
def fill_random (g : Game) (sampler : Nat → Bool) : Game :=
  let newCells := (List.range g.cells.length).map
    (fun i => Cell.fromNat (if sampler i then 1 else 0))
  { g with cells := newCells }

end Game

/-!
Mathematical layer used to state and prove properties of tick: cell
values and neighbor counts addressed by (row, col) coordinates.
-/

/-- The cell of a game at (row, col), via the row-major flat index. -/
def valAt (g : Game) (r c : Nat) : Cell :=
  g.cells.getD (r * g.width + c) Cell.Dead

/-- The conjunction of the life rule arms of tick: 3 gives Alive, 2
keeps the old cell, anything else gives Dead. -/
def lifeRule (old : Cell) (n : Nat) : Cell :=
  if n = 3 then Cell.Alive else if n = 2 then old else Cell.Dead

/-- Modelled from the spec sentence describing toroidal neighbor
addressing: the eight neighbor coordinates of (row, col), where row - 1
wraps to height - 1, row + 1 wraps to 0, and symmetrically for columns.
Listed in the same order as the source. -/
def specNeighbors (height width r c : Nat) : List (Nat × Nat) :=
  let rU := if r = 0 then height - 1 else r - 1
  let rD := if r = height - 1 then 0 else r + 1
  let cL := if c = 0 then width - 1 else c - 1
  let cR := if c = width - 1 then 0 else c + 1
  [(rU, cL), (rU, c), (rU, cR), (r, cR), (rD, cR),
   (rD, c), (rD, cL), (r, cL)]

/-- The number of live cells among the eight toroidally wrapped
neighbors of (row, col), counted over the generation stored in g. -/
def countAt (g : Game) (r c : Nat) : Nat :=
  ((specNeighbors g.height g.width r c).map
    (fun p => (valAt g p.1 p.2).toNat)).sum

/-- Modelled from the spec: the new state of the cell at (row, col),
evaluated entirely against the prior generation g. -/
def specNewCell (g : Game) (r c : Nat) : Cell :=
  lifeRule (valAt g r c) (countAt g r c)

/-!
Test fixtures: concrete games and parametric block placements used to
state the testable properties.
-/

/-- Builds a game from a row-major list of 0 and 1 entries; the scratch
buffer is initialized to the same contents, so the invariant holds
whenever the list has length w * h. -/
def mkGame (w h : Nat) (l : List Nat) : Game :=
  { cells := l.map Cell.fromNat, next := l.map Cell.fromNat,
    width := w, height := h }

/-- Membership in the two-element wrapped window that starts at x0:
the row (or column) band covered by a 2 by 2 block. -/
def inBand (x0 n x : Nat) : Prop :=
  x = x0 ∨ x = (x0 + 1) % n

instance (x0 n x : Nat) : Decidable (inBand x0 n x) := by
  unfold inBand; infer_instance

/-- Indicator of a decidable proposition. -/
def indM (P : Prop) [Decidable P] : Nat :=
  if P then 1 else 0

/-- The cells of a grid of width w and height h holding a 2 by 2 block
of Alive cells whose top left corner is at (r0, c0), wrapping past the
edges; every other cell is Dead. -/
def blockCells (w h r0 c0 : Nat) : List Cell :=
  (List.range (h * w)).map (fun i =>
    if inBand r0 h (i / w) ∧ inBand c0 w (i % w) then Cell.Alive
    else Cell.Dead)

/-- A game holding exactly one 2 by 2 block of Alive cells. -/
def blockGame (w h r0 c0 : Nat) : Game :=
  { cells := blockCells w h r0 c0, next := blockCells w h r0 c0,
    width := w, height := h }

/-!
Lemmas about the sequencing combinator mapO.
-/

theorem mapO_getElem {f : α → Option β} {l : List α} {ys : List β}
    (h : mapO f l = some ys) (i : Nat) : ys[i]? = l[i]?.bind f := by
  induction l generalizing ys i with
  | nil =>
    simp only [mapO] at h
    cases h
    simp
  | cons x xs ih =>
    simp only [mapO] at h
    cases hfx : f x with
    | none => rw [hfx] at h; simp at h
    | some y =>
      rw [hfx] at h
      cases hm : mapO f xs with
      | none => rw [hm] at h; simp at h
      | some zs =>
        rw [hm] at h
        simp only [Option.some.injEq] at h
        subst h
        cases i with
        | zero => simp [hfx]
        | succ j => simpa using ih hm j

theorem mapO_length {f : α → Option β} {l : List α} {ys : List β}
    (h : mapO f l = some ys) : ys.length = l.length := by
  induction l generalizing ys with
  | nil => simp only [mapO] at h; cases h; rfl
  | cons x xs ih =>
    simp only [mapO] at h
    cases hfx : f x with
    | none => rw [hfx] at h; simp at h
    | some y =>
      rw [hfx] at h
      cases hm : mapO f xs with
      | none => rw [hm] at h; simp at h
      | some zs =>
        rw [hm] at h
        simp only [Option.some.injEq] at h
        subst h
        simp [ih hm]

theorem mapO_isSome {f : α → Option β} {l : List α}
    (h : ∀ x ∈ l, (f x).isSome) : ∃ ys, mapO f l = some ys := by
  induction l with
  | nil => exact ⟨[], rfl⟩
  | cons x xs ih =>
    obtain ⟨ys, hys⟩ := ih (fun z hz => h z (List.mem_cons_of_mem x hz))
    have hx := h x (List.mem_cons_self x xs)
    cases hfx : f x with
    | none => rw [hfx] at hx; simp at hx
    | some y => exact ⟨y :: ys, by simp [mapO, hfx, hys]⟩

theorem mapO_getElem_eq_map_getD (cells : List Cell) (ixs : List Nat)
    (h : ∀ i ∈ ixs, i < cells.length) :
    mapO (fun i => cells[i]?) ixs =
      some (ixs.map (fun i => cells.getD i Cell.Dead)) := by
  induction ixs with
  | nil => simp [mapO]
  | cons x xs ih =>
    have hx : x < cells.length := h x (List.mem_cons_self x xs)
    have hxs := ih (fun i hi => h i (List.mem_cons_of_mem x hi))
    simp only [mapO, hxs, List.map_cons]
    rw [List.getElem?_eq_getElem hx]
    simp [List.getD_eq_getElem?_getD, List.getElem?_eq_getElem hx]

/-!
Lemmas about the u8 accumulator fold.
-/

theorem Cell.toNat_le_one (c : Cell) : c.toNat ≤ 1 := by
  cases c <;> simp [Cell.toNat]

theorem sum_map_toNat_le (l : List Cell) :
    (l.map Cell.toNat).sum ≤ l.length := by
  induction l with
  | nil => simp
  | cons c cs ih =>
    have := Cell.toNat_le_one c
    simp only [List.map_cons, List.sum_cons, List.length_cons]
    omega

theorem foldU8_eq_sum (vals : List Cell) (acc : Nat)
    (h : acc + (vals.map Cell.toNat).sum < 256) :
    vals.foldl (fun a c => addU8 a c.toNat) acc =
      acc + (vals.map Cell.toNat).sum := by
  induction vals generalizing acc with
  | nil => simp
  | cons c cs ih =>
    simp only [List.map_cons, List.sum_cons] at h ⊢
    have hstep : addU8 acc c.toNat = acc + c.toNat := by
      unfold addU8
      exact Nat.mod_eq_of_lt (by omega)
    simp only [List.foldl_cons, hstep]
    rw [ih (acc + c.toNat) (by omega)]
    omega

/-!
Bounds for the wrapped indexes.
-/

theorem wrapDec_lt {n i : Nat} (hn : 0 < n) (hi : i < n) :
    wrapDec i (n - 1) < n := by
  unfold wrapDec; split <;> omega

theorem wrapInc_lt {n i : Nat} (hn : 0 < n) (hi : i < n) :
    wrapInc i (n - 1) < n := by
  unfold wrapInc; split <;> omega

theorem flat_lt {w h a b : Nat} (ha : a < h) (hb : b < w) :
    a * w + b < w * h := by
  have h1 : a * w + b < (a + 1) * w := by
    have : (a + 1) * w = a * w + w := by ring
    omega
  have h2 : (a + 1) * w ≤ h * w := Nat.mul_le_mul_right w ha
  have h3 : h * w = w * h := Nat.mul_comm h w
  omega

theorem neighborIndexes_lt {w h r c : Nat} (hw : 0 < w) (hh : 0 < h)
    (hr : r < h) (hc : c < w) :
    ∀ i ∈ neighborIndexes w h r c, i < w * h := by
  intro i hi
  have h1 := wrapDec_lt hh hr
  have h2 := wrapInc_lt hh hr
  have h3 := wrapDec_lt hw hc
  have h4 := wrapInc_lt hw hc
  simp only [neighborIndexes, List.mem_cons, List.not_mem_nil, or_false] at hi
  rcases hi with h | h | h | h | h | h | h | h <;> subst h <;>
    first
      | exact flat_lt h1 h3
      | exact flat_lt h1 hc
      | exact flat_lt h1 h4
      | exact flat_lt hr h4
      | exact flat_lt h2 h4
      | exact flat_lt h2 hc
      | exact flat_lt h2 h3
      | exact flat_lt hr h3

theorem neighborIndexes_eq_spec (w h r c : Nat) :
    neighborIndexes w h r c =
      (specNeighbors h w r c).map (fun p => p.1 * w + p.2) := by
  simp [neighborIndexes, specNeighbors, wrapDec, wrapInc]

/-!
Characterization of one loop iteration of tick and of tick itself.
-/

theorem stepCell_eq (g : Game) (hc : g.cells.length = g.width * g.height)
    (hw : 0 < g.width) (hh : 0 < g.height) {r c : Nat}
    (hr : r < g.height) (hcw : c < g.width) :
    stepCell g.cells g.width g.height r c (r * g.width + c) =
      some (lifeRule (valAt g r c) (countAt g r c)) := by
  have hlt : ∀ i ∈ neighborIndexes g.width g.height r c, i < g.cells.length := by
    intro i hi
    rw [hc]
    exact neighborIndexes_lt hw hh hr hcw i hi
  have hmap := mapO_getElem_eq_map_getD g.cells _ hlt
  have hcur : r * g.width + c < g.cells.length := by
    rw [hc]; exact flat_lt hr hcw
  have hlen :
      ((neighborIndexes g.width g.height r c).map
        (fun i => g.cells.getD i Cell.Dead)).length = 8 := by
    simp [neighborIndexes]
  have hsum := sum_map_toNat_le
    ((neighborIndexes g.width g.height r c).map (fun i => g.cells.getD i Cell.Dead))
  rw [hlen] at hsum
  have hfold := foldU8_eq_sum
    ((neighborIndexes g.width g.height r c).map (fun i => g.cells.getD i Cell.Dead))
    0 (by omega)
  have hcount :
      (((neighborIndexes g.width g.height r c).map
        (fun i => g.cells.getD i Cell.Dead)).map Cell.toNat).sum = countAt g r c := by
    rw [neighborIndexes_eq_spec, List.map_map, List.map_map]
    rfl
  simp only [stepCell, hmap]
  rw [hfold, Nat.zero_add, hcount]
  have hval : g.cells[r * g.width + c]? = some (valAt g r c) := by
    rw [List.getElem?_eq_getElem hcur]
    simp [valAt, List.getD_eq_getElem?_getD, List.getElem?_eq_getElem hcur]
  split
  · next heq => simp [lifeRule, heq]
  · next heq => simp [lifeRule, heq, hval]
  · next h3 h2 =>
      simp only [lifeRule]
      rw [if_neg h3, if_neg h2]

theorem tick_eq_spec (g : Game) (hInv : g.Invariant) :
    ∃ g', g.tick = some g' ∧ g'.width = g.width ∧ g'.height = g.height ∧
      g'.next = g'.cells ∧ g'.cells.length = g.width * g.height ∧
      ∀ r c, r < g.height → c < g.width →
        g'.cells[r * g.width + c]? = some (specNewCell g r c) := by
  obtain ⟨h1, h2, hw, hh⟩ := hInv
  have hstep : ∀ i, i < g.width * g.height →
      stepCell g.cells g.width g.height (i / g.width) (i % g.width) i =
        some (specNewCell g (i / g.width) (i % g.width)) := by
    intro i hi
    have hdiv : i / g.width < g.height := by
      rw [Nat.div_lt_iff_lt_mul hw, Nat.mul_comm g.height g.width]
      exact hi
    have hmod : i % g.width < g.width := Nat.mod_lt i hw
    have hi' : i / g.width * g.width + i % g.width = i := by
      have h5 := Nat.div_add_mod i g.width
      rw [Nat.mul_comm (i / g.width) g.width]
      omega
    have := stepCell_eq g h1 hw hh hdiv hmod
    rw [hi'] at this
    exact this
  have hsome : ∀ i ∈ List.range (g.width * g.height),
      (stepCell g.cells g.width g.height (i / g.width) (i % g.width) i).isSome := by
    intro i hi
    rw [List.mem_range] at hi
    rw [hstep i hi]
    rfl
  obtain ⟨ys, hys⟩ := mapO_isSome hsome
  refine ⟨{ g with cells := ys, next := ys }, ?_, rfl, rfl, rfl, ?_, ?_⟩
  · have hw' : g.width ≠ 0 := by omega
    have hh' : g.height ≠ 0 := by omega
    unfold Game.tick
    simp [h1, h2, hw', hh', hys]
  · have := mapO_length hys
    simpa using this
  · intro r c hr hc
    have hlt : r * g.width + c < g.width * g.height := flat_lt hr hc
    have := mapO_getElem hys (r * g.width + c)
    rw [List.getElem?_range hlt] at this
    simp only [Option.some_bind] at this
    rw [this, hstep _ hlt]
    have hdiv : (r * g.width + c) / g.width = r := by
      rw [Nat.add_comm, Nat.add_mul_div_right _ _ hw, Nat.div_eq_of_lt hc]
      omega
    have hmod : (r * g.width + c) % g.width = c := by
      rw [Nat.add_comm, Nat.add_mul_mod_self_right]
      exact Nat.mod_eq_of_lt hc
    rw [hdiv, hmod]

/-!
Arithmetic helpers for flat row-major indexes.
-/

theorem flatDiv {w r c : Nat} (hc : c < w) : (r * w + c) / w = r := by
  have hw : 0 < w := by omega
  rw [Nat.add_comm, Nat.add_mul_div_right _ _ hw, Nat.div_eq_of_lt hc]
  omega

theorem flatMod {w r c : Nat} (hc : c < w) : (r * w + c) % w = c := by
  rw [Nat.add_comm, Nat.add_mul_mod_self_right]
  exact Nat.mod_eq_of_lt hc

theorem flatDivLt {w h i : Nat} (hw : 0 < w) (hi : i < w * h) : i / w < h := by
  rw [Nat.div_lt_iff_lt_mul hw, Nat.mul_comm h w]
  exact hi

theorem flatModLt {w : Nat} (i : Nat) (hw : 0 < w) : i % w < w := Nat.mod_lt i hw

theorem flatRecomp {w i : Nat} (hw : 0 < w) : i / w * w + i % w = i := by
  have h5 := Nat.div_add_mod i w
  rw [Nat.mul_comm (i / w) w]
  omega

/-!
Indicator arithmetic for the 2 by 2 block analysis.
-/

theorem indM_le_one (P : Prop) [Decidable P] : indM P ≤ 1 := by
  unfold indM; split <;> omega

theorem indM_eq_one_iff {P : Prop} [Decidable P] : indM P = 1 ↔ P := by
  unfold indM; split <;> simp_all

theorem indM_eq_zero_iff {P : Prop} [Decidable P] : indM P = 0 ↔ ¬P := by
  unfold indM; split <;> simp_all

theorem toNat_ite_and (A B : Prop) [Decidable A] [Decidable B] :
    (if A ∧ B then Cell.Alive else Cell.Dead).toNat = indM A * indM B := by
  by_cases hA : A <;> by_cases hB : B <;> simp [indM, Cell.toNat, hA, hB]

theorem succ_mod_eq {x0 n : Nat} (h : x0 < n) :
    (x0 + 1) % n = if x0 = n - 1 then 0 else x0 + 1 := by
  split
  · next heq =>
    have h1 : x0 + 1 = n := by omega
    rw [h1, Nat.mod_self]
  · next hne => exact Nat.mod_eq_of_lt (by omega)

/-- Facts about the wrapped three-cell window centered at x, relative
to the two-cell band starting at x0, on a circle of size n with n at
least 3: when the center is in the band exactly one of the two wrapped
ends is in the band, and the window never meets the band three times. -/
theorem windowFacts (n x0 x : Nat) (hn : 3 ≤ n) (hx : x < n) (hx0 : x0 < n) :
    (indM (inBand x0 n x) = 1 →
      indM (inBand x0 n (wrapDec x (n - 1))) +
        indM (inBand x0 n (wrapInc x (n - 1))) = 1) ∧
    indM (inBand x0 n (wrapDec x (n - 1))) + indM (inBand x0 n x) +
      indM (inBand x0 n (wrapInc x (n - 1))) ≤ 2 := by
  unfold inBand indM wrapDec wrapInc
  by_cases h0 : x0 = n - 1
  · have hm : (x0 + 1) % n = 0 := by rw [succ_mod_eq hx0, if_pos h0]
    simp only [hm]
    split_ifs <;>
      first
        | omega
        | (simp only [or_false, false_or, false_implies, true_implies,
            eq_self_iff_true, not_true, not_false_iff] at * <;> omega)
        | simp_all
        | (simp_all; omega)
  · have hm : (x0 + 1) % n = x0 + 1 := by rw [succ_mod_eq hx0, if_neg h0]
    simp only [hm]
    split_ifs <;>
      first
        | omega
        | (simp only [or_false, false_or, false_implies, true_implies,
            eq_self_iff_true, not_true, not_false_iff] at * <;> omega)
        | simp_all
        | (simp_all; omega)

/-- Case analysis for the neighbor count of a cell relative to a 2 by 2
block, in terms of the row and column window indicators. -/
theorem count_cases (A1 A2 A3 B1 B2 B3 : Nat)
    (ha1 : A1 ≤ 1) (ha2 : A2 ≤ 1) (ha3 : A3 ≤ 1)
    (hb1 : B1 ≤ 1) (hb2 : B2 ≤ 1) (hb3 : B3 ≤ 1)
    (hrowIn : A2 = 1 → A1 + A3 = 1) (hrowPig : A1 + A2 + A3 ≤ 2)
    (hcolIn : B2 = 1 → B1 + B3 = 1) (hcolPig : B1 + B2 + B3 ≤ 2) :
    (A2 = 1 → B2 = 1 →
      A1 * B1 + A1 * B2 + A1 * B3 + A2 * B3 + A3 * B3 + A3 * B2 +
        A3 * B1 + A2 * B1 = 3) ∧
    (A2 = 0 ∨ B2 = 0 →
      A1 * B1 + A1 * B2 + A1 * B3 + A2 * B3 + A3 * B3 + A3 * B2 +
        A3 * B1 + A2 * B1 ≠ 3) := by
  interval_cases A1 <;> interval_cases A2 <;> interval_cases A3 <;>
    interval_cases B1 <;> interval_cases B2 <;> interval_cases B3 <;> omega

/-!
The 2 by 2 block on a toroidal grid with both dimensions at least 3.
-/

theorem specNeighbors_eq_wrap (h w r c : Nat) :
    specNeighbors h w r c =
      [(wrapDec r (h - 1), wrapDec c (w - 1)), (wrapDec r (h - 1), c),
       (wrapDec r (h - 1), wrapInc c (w - 1)), (r, wrapInc c (w - 1)),
       (wrapInc r (h - 1), wrapInc c (w - 1)), (wrapInc r (h - 1), c),
       (wrapInc r (h - 1), wrapDec c (w - 1)), (r, wrapDec c (w - 1))] := rfl

theorem blockGame_width (w h r0 c0 : Nat) : (blockGame w h r0 c0).width = w := rfl

theorem blockGame_height (w h r0 c0 : Nat) : (blockGame w h r0 c0).height = h := rfl

theorem blockGame_cells (w h r0 c0 : Nat) :
    (blockGame w h r0 c0).cells = blockCells w h r0 c0 := rfl

theorem blockGame_next (w h r0 c0 : Nat) :
    (blockGame w h r0 c0).next = blockCells w h r0 c0 := rfl

theorem valAt_blockGame {w h r0 c0 : Nat} (r c : Nat) (hr : r < h) (hc : c < w) :
    valAt (blockGame w h r0 c0) r c =
      if inBand r0 h r ∧ inBand c0 w c then Cell.Alive else Cell.Dead := by
  have hidx : r * w + c < h * w := by
    have h1 := flat_lt hr hc
    have h2 : w * h = h * w := Nat.mul_comm w h
    omega
  show (blockCells w h r0 c0).getD (r * w + c) Cell.Dead = _
  unfold blockCells
  rw [List.getD_eq_getElem?_getD, List.getElem?_map, List.getElem?_range hidx,
    Option.map_some', Option.getD_some, flatDiv hc, flatMod hc]

theorem blockGame_invariant (w h r0 c0 : Nat) (hw : 0 < w) (hh : 0 < h) :
    (blockGame w h r0 c0).Invariant := by
  refine ⟨?_, ?_, hw, hh⟩ <;>
    simp [blockGame, blockCells, Nat.mul_comm h w]

theorem blockGame_spec_step {w h r0 c0 : Nat} (hw3 : 3 ≤ w) (hh3 : 3 ≤ h)
    (hr0 : r0 < h) (hc0 : c0 < w) (r c : Nat) (hr : r < h) (hc : c < w) :
    specNewCell (blockGame w h r0 c0) r c = valAt (blockGame w h r0 c0) r c := by
  have hw : 0 < w := by omega
  have hh : 0 < h := by omega
  have hu := wrapDec_lt hh hr
  have hd := wrapInc_lt hh hr
  have hl := wrapDec_lt hw hc
  have hrt := wrapInc_lt hw hc
  have hcsum : countAt (blockGame w h r0 c0) r c =
      indM (inBand r0 h (wrapDec r (h - 1))) * indM (inBand c0 w (wrapDec c (w - 1))) +
      (indM (inBand r0 h (wrapDec r (h - 1))) * indM (inBand c0 w c) +
      (indM (inBand r0 h (wrapDec r (h - 1))) * indM (inBand c0 w (wrapInc c (w - 1))) +
      (indM (inBand r0 h r) * indM (inBand c0 w (wrapInc c (w - 1))) +
      (indM (inBand r0 h (wrapInc r (h - 1))) * indM (inBand c0 w (wrapInc c (w - 1))) +
      (indM (inBand r0 h (wrapInc r (h - 1))) * indM (inBand c0 w c) +
      (indM (inBand r0 h (wrapInc r (h - 1))) * indM (inBand c0 w (wrapDec c (w - 1))) +
      indM (inBand r0 h r) * indM (inBand c0 w (wrapDec c (w - 1))))))))) := by
    unfold countAt
    simp only [blockGame_width, blockGame_height]
    rw [specNeighbors_eq_wrap]
    simp only [List.map_cons, List.map_nil, List.sum_cons, List.sum_nil, add_zero]
    rw [valAt_blockGame (wrapDec r (h - 1)) (wrapDec c (w - 1)) hu hl,
      valAt_blockGame (wrapDec r (h - 1)) c hu hc,
      valAt_blockGame (wrapDec r (h - 1)) (wrapInc c (w - 1)) hu hrt,
      valAt_blockGame r (wrapInc c (w - 1)) hr hrt,
      valAt_blockGame (wrapInc r (h - 1)) (wrapInc c (w - 1)) hd hrt,
      valAt_blockGame (wrapInc r (h - 1)) c hd hc,
      valAt_blockGame (wrapInc r (h - 1)) (wrapDec c (w - 1)) hd hl,
      valAt_blockGame r (wrapDec c (w - 1)) hr hl]
    simp only [toNat_ite_and]
  have hwinR := windowFacts h r0 r hh3 hr hr0
  have hwinC := windowFacts w c0 c hw3 hc hc0
  have hcases := count_cases
    (indM (inBand r0 h (wrapDec r (h - 1)))) (indM (inBand r0 h r))
    (indM (inBand r0 h (wrapInc r (h - 1))))
    (indM (inBand c0 w (wrapDec c (w - 1)))) (indM (inBand c0 w c))
    (indM (inBand c0 w (wrapInc c (w - 1))))
    (indM_le_one _) (indM_le_one _) (indM_le_one _)
    (indM_le_one _) (indM_le_one _) (indM_le_one _)
    (by intro h2; have := hwinR.1 h2; omega) hwinR.2
    (by intro h2; have := hwinC.1 h2; omega) hwinC.2
  rw [valAt_blockGame r c hr hc]
  by_cases hinR : inBand r0 h r
  · by_cases hinC : inBand c0 w c
    · have hA2 : indM (inBand r0 h r) = 1 := indM_eq_one_iff.mpr hinR
      have hB2 : indM (inBand c0 w c) = 1 := indM_eq_one_iff.mpr hinC
      have h3 : countAt (blockGame w h r0 c0) r c = 3 := by
        have := hcases.1 hA2 hB2
        omega
      unfold specNewCell
      rw [valAt_blockGame r c hr hc, h3, if_pos ⟨hinR, hinC⟩]
      simp [lifeRule]
    · have hB2 : indM (inBand c0 w c) = 0 := indM_eq_zero_iff.mpr hinC
      have hne : countAt (blockGame w h r0 c0) r c ≠ 3 := by
        have := hcases.2 (Or.inr hB2)
        omega
      unfold specNewCell
      rw [valAt_blockGame r c hr hc, if_neg (fun hand => hinC hand.2)]
      unfold lifeRule
      rw [if_neg hne]
      split <;> rfl
  · have hA2 : indM (inBand r0 h r) = 0 := indM_eq_zero_iff.mpr hinR
    have hne : countAt (blockGame w h r0 c0) r c ≠ 3 := by
      have := hcases.2 (Or.inl hA2)
      omega
    unfold specNewCell
    rw [valAt_blockGame r c hr hc, if_neg (fun hand => hinR hand.1)]
    unfold lifeRule
    rw [if_neg hne]
    split <;> rfl

theorem blockCells_length (w h r0 c0 : Nat) :
    (blockCells w h r0 c0).length = h * w := by
  simp [blockCells]

/-- A 2 by 2 block is a still life on every grid with both dimensions at
least 3, for every wrapped placement of the block. -/
theorem blockGame_still (w h r0 c0 : Nat) (hw3 : 3 ≤ w) (hh3 : 3 ≤ h)
    (hr0 : r0 < h) (hc0 : c0 < w) :
    (blockGame w h r0 c0).tick = some (blockGame w h r0 c0) := by
  have hw : 0 < w := by omega
  have hh : 0 < h := by omega
  obtain ⟨g', ht, hWidth, hHeight, hNext, hLen, hCells⟩ :=
    tick_eq_spec (blockGame w h r0 c0) (blockGame_invariant w h r0 c0 hw hh)
  simp only [blockGame_width, blockGame_height] at hWidth hHeight hLen hCells
  have hceq : g'.cells = blockCells w h r0 c0 := by
    apply List.ext_getElem?
    intro i
    by_cases hi : i < w * h
    · have hdiv : i / w < h := flatDivLt hw hi
      have hmod : i % w < w := flatModLt i hw
      have hrec : i / w * w + i % w = i := flatRecomp hw
      have h1 := hCells (i / w) (i % w) hdiv hmod
      rw [hrec] at h1
      rw [h1, blockGame_spec_step hw3 hh3 hr0 hc0 (i / w) (i % w) hdiv hmod]
      have hib : i < (blockCells w h r0 c0).length := by
        rw [blockCells_length]
        have := Nat.mul_comm w h
        omega
      rw [List.getElem?_eq_getElem hib]
      show some ((blockCells w h r0 c0).getD (i / w * w + i % w) Cell.Dead) = _
      rw [hrec, List.getD_eq_getElem?_getD, List.getElem?_eq_getElem hib,
        Option.getD_some]
    · have hib : (blockCells w h r0 c0).length ≤ i := by
        rw [blockCells_length]
        have := Nat.mul_comm w h
        omega
      rw [List.getElem?_eq_none (by omega : g'.cells.length ≤ i),
        List.getElem?_eq_none hib]
  have hg : g' = blockGame w h r0 c0 := by
    apply Game.ext
    · rw [hceq, blockGame_cells]
    · rw [hNext, hceq, blockGame_next]
    · rw [hWidth, blockGame_width]
    · rw [hHeight, blockGame_height]
  rw [ht, hg]

/-!
Elements of the StepBy iterator model.
-/

theorem stepByAux_getElem {β : Type} (k : Nat) :
    ∀ (l : List β) (i : Nat), (stepByAux k l)[i]? = l[i * (k + 1)]? := by
  intro l
  induction l using stepByAux.induct k with
  | case1 => intro i; simp [stepByAux]
  | case2 x xs ih =>
    intro i
    cases i with
    | zero => simp [stepByAux]
    | succ j =>
      rw [stepByAux]
      have h1 : (x :: stepByAux k (xs.drop k))[j + 1]? =
          (stepByAux k (xs.drop k))[j]? := List.getElem?_cons_succ
      rw [h1, ih j, List.getElem?_drop]
      have h2 : (j + 1) * (k + 1) = k + j * (k + 1) + 1 := by ring
      rw [h2]
      exact (List.getElem?_cons_succ).symm

/-!
Claim theorems.
-/

/-- C1: for every Game satisfying the buffer-length invariant, tick
advances exactly one generation: it succeeds, preserves the dimensions,
publishes the scratch buffer over the primary buffer in one step (both
buffers end up equal to the new generation), and the new state of every
cell at (row, col) is a function of the entire prior generation only:
Alive when the count of its 8 toroidally wrapped neighbors in the prior
generation is 3, its prior state when the count is 2, and Dead
otherwise. -/
theorem spec_c1_tick_one_generation (g : Game) (hInv : g.Invariant) :
    ∃ g', g.tick = some g' ∧ g'.width = g.width ∧ g'.height = g.height ∧
      g'.next = g'.cells ∧ g'.cells.length = g.width * g.height ∧
      ∀ r c, r < g.height → c < g.width →
        g'.cells[r * g.width + c]? = some (specNewCell g r c) :=
  tick_eq_spec g hInv

/-- Witness for C1 at a concrete 3 by 3 game. -/
theorem spec_c1_witness :
    ∃ g', (mkGame 3 3 [0, 1, 0, 0, 1, 0, 0, 1, 0]).tick = some g' ∧
      g'.width = (mkGame 3 3 [0, 1, 0, 0, 1, 0, 0, 1, 0]).width ∧
      g'.height = (mkGame 3 3 [0, 1, 0, 0, 1, 0, 0, 1, 0]).height ∧
      g'.next = g'.cells ∧
      g'.cells.length =
        (mkGame 3 3 [0, 1, 0, 0, 1, 0, 0, 1, 0]).width *
          (mkGame 3 3 [0, 1, 0, 0, 1, 0, 0, 1, 0]).height ∧
      ∀ r c, r < (mkGame 3 3 [0, 1, 0, 0, 1, 0, 0, 1, 0]).height →
        c < (mkGame 3 3 [0, 1, 0, 0, 1, 0, 0, 1, 0]).width →
        g'.cells[r * (mkGame 3 3 [0, 1, 0, 0, 1, 0, 0, 1, 0]).width + c]? =
          some (specNewCell (mkGame 3 3 [0, 1, 0, 0, 1, 0, 0, 1, 0]) r c) :=
  spec_c1_tick_one_generation (mkGame 3 3 [0, 1, 0, 0, 1, 0, 0, 1, 0]) (by decide)

/-- C2: under the precondition that both buffer lengths equal
width * height and both dimensions are positive, every index tick hands
to its unchecked accesses, namely the eight wrapped neighbor indexes and
the current index, is strictly below width * height; consequently the
Option-returning lookups of the embedding never return none and tick
succeeds. -/
theorem spec_c2_unchecked_in_bounds :
    (∀ w h r c, 0 < w → 0 < h → r < h → c < w →
      (∀ i ∈ neighborIndexes w h r c, i < w * h) ∧ r * w + c < w * h) ∧
    (∀ g : Game, g.Invariant → (g.tick).isSome) := by
  constructor
  · intro w h r c hw hh hr hc
    exact ⟨neighborIndexes_lt hw hh hr hc, flat_lt hr hc⟩
  · intro g hInv
    obtain ⟨g', ht, _⟩ := tick_eq_spec g hInv
    rw [ht]
    rfl

/-- Witness for C2 at concrete dimensions and a concrete game. -/
theorem spec_c2_witness :
    ((∀ i ∈ neighborIndexes 2 3 1 0, i < 2 * 3) ∧ 1 * 2 + 0 < 2 * 3) ∧
      ((mkGame 2 2 [1, 0, 0, 1]).tick).isSome :=
  ⟨spec_c2_unchecked_in_bounds.1 2 3 1 0 (by decide) (by decide) (by decide)
      (by decide),
    spec_c2_unchecked_in_bounds.2 (mkGame 2 2 [1, 0, 0, 1]) (by decide)⟩

/-- C4: new fails exactly when width is 0, height is 0, or the product
width * height overflows the usize range; on success the dimensions are
as requested, both buffers have length width * height, and every cell of
both buffers is Dead. -/
theorem spec_c4_new (w h : Nat) :
    (Game.new w h = none ↔ w = 0 ∨ h = 0 ∨ usizeMax < w * h) ∧
    (∀ g, Game.new w h = some g →
      g.width = w ∧ g.height = h ∧
      g.cells.length = w * h ∧ g.next.length = w * h ∧
      (∀ x ∈ g.cells, x = Cell.Dead) ∧ (∀ x ∈ g.next, x = Cell.Dead)) := by
  constructor
  · unfold Game.new checkedMul
    by_cases hw0 : w = 0
    · simp [hw0]
    · rw [if_neg hw0]
      by_cases hh0 : h = 0
      · simp [hw0, hh0]
      · rw [if_neg hh0]
        by_cases hover : w * h ≤ usizeMax
        · rw [if_pos hover]
          simp [hw0, hh0]
          omega
        · rw [if_neg hover]
          simp [hw0, hh0]
          omega
  · intro g hg
    unfold Game.new checkedMul at hg
    split_ifs at hg with h1 h2 h3 <;>
      first
        | exact Option.noConfusion hg
        | (cases hg
           exact ⟨rfl, rfl, by simp, by simp,
             fun x hx => by simpa using List.eq_of_mem_replicate hx,
             fun x hx => by simpa using List.eq_of_mem_replicate hx⟩)

/-- Witness for C4: a successful construction at 3 by 2. -/
theorem spec_c4_witness :
    (mkGame 3 2 [0, 0, 0, 0, 0, 0]).width = 3 ∧
    (mkGame 3 2 [0, 0, 0, 0, 0, 0]).height = 2 ∧
    (mkGame 3 2 [0, 0, 0, 0, 0, 0]).cells.length = 3 * 2 ∧
    (mkGame 3 2 [0, 0, 0, 0, 0, 0]).next.length = 3 * 2 ∧
    (∀ x ∈ (mkGame 3 2 [0, 0, 0, 0, 0, 0]).cells, x = Cell.Dead) ∧
    (∀ x ∈ (mkGame 3 2 [0, 0, 0, 0, 0, 0]).next, x = Cell.Dead) :=
  (spec_c4_new 3 2).2 (mkGame 3 2 [0, 0, 0, 0, 0, 0]) (by decide)

/-- C5 counterexample: on the 2 by 2 grid (both dimensions equal to 2,
hence at least 2 as the claim demands) the 2 by 2 block of Alive cells
is not a still life: every cell sees neighbor count 8 and dies. -/
theorem spec_c5_counterexample :
    (blockGame 2 2 0 0).tick ≠ some (blockGame 2 2 0 0) := by decide

/-- C5 amended: a 2 by 2 block of Alive cells, placed anywhere (with
wrapping) on a grid whose dimensions are both at least 3, is a still
life: the grid is unchanged after one tick. On grids with a dimension
equal to 2 the wrapped neighborhoods double-count the block and the
property fails. -/
theorem spec_c5_block_still_life (w h r0 c0 : Nat) (hw3 : 3 ≤ w)
    (hh3 : 3 ≤ h) (hr0 : r0 < h) (hc0 : c0 < w) :
    (blockGame w h r0 c0).tick = some (blockGame w h r0 c0) :=
  blockGame_still w h r0 c0 hw3 hh3 hr0 hc0

/-- Witness for C5 on a 4 by 3 grid with a wrapped placement. -/
theorem spec_c5_witness :
    (blockGame 4 3 2 3).tick = some (blockGame 4 3 2 3) :=
  spec_c5_block_still_life 4 3 2 3 (by decide) (by decide) (by decide)
    (by decide)

/-- C8 counterexample: minus one is a nonzero value of a supported
signed integer type, yet constructing a Cell from it yields Dead, not
Alive. -/
theorem spec_c8_counterexample :
    Cell.fromInt (-1) = Cell.Dead ∧ (-1 : Int) ≠ 0 := by decide

/-- C8 amended: construction from an unsigned integer yields Alive
exactly on nonzero values; construction from a signed integer yields
Alive exactly on strictly positive values (so nonzero negatives give
Dead); conversion to an integer yields exactly 1 for Alive and 0 for
Dead. -/
theorem spec_c8_cell_conversions :
    (∀ n : Nat, Cell.fromNat n = Cell.Alive ↔ n ≠ 0) ∧
    (∀ i : Int, Cell.fromInt i = Cell.Alive ↔ 0 < i) ∧
    Cell.fromNat 0 = Cell.Dead ∧ Cell.fromInt 0 = Cell.Dead ∧
    Cell.Alive.toNat = 1 ∧ Cell.Dead.toNat = 0 ∧
    Cell.Alive.toInt = 1 ∧ Cell.Dead.toInt = 0 := by
  refine ⟨?_, ?_, rfl, rfl, rfl, rfl, rfl, rfl⟩
  · intro n
    unfold Cell.fromNat
    split <;> rename_i hs <;> simp <;> omega
  · intro i
    unfold Cell.fromInt
    split <;> rename_i hs <;> simp_all

/-- Witness for C8 at concrete integers. -/
theorem spec_c8_witness : Cell.fromNat 5 = Cell.Alive :=
  (spec_c8_cell_conversions.1 5).mpr (by decide)

/-- C10 counterexample: on the 2 by 2 grid both dimensions are at most
2, yet the cell at (0, 0), whose flat index is 0, is not among the
eight neighbor indexes tick computes for it, so it is not counted among
its own neighbors. -/
theorem spec_c10_counterexample :
    ¬ ((0 * 2 + 0) ∈ neighborIndexes 2 2 0 0) := by decide

/-- C10 amended: on grids with width at most 2 or height at most 2 the
eight neighbor indexes of every cell contain a repeat, so a single live
cell can be counted more than once (on the 2 by 1 grid with one live
cell, the dead cell sees neighbor count 6); a cell is counted among its
own neighbors when width is 1 or height is 1 (not on the 2 by 2 grid,
see the counterexample); and on the 1 by 1 grid with its sole cell
Alive that cell has neighbor count 8 and dies after one tick. -/
theorem spec_c10_small_grids :
    (∀ w h r c, 0 < w → 0 < h → r < h → c < w → (w ≤ 2 ∨ h ≤ 2) →
      ¬ (neighborIndexes w h r c).Nodup) ∧
    (∀ w h r c, 0 < w → 0 < h → r < h → c < w → (w = 1 ∨ h = 1) →
      (r * w + c) ∈ neighborIndexes w h r c) ∧
    countAt (mkGame 2 1 [0, 1]) 0 0 = 6 ∧
    countAt (mkGame 1 1 [1]) 0 0 = 8 ∧
    (mkGame 1 1 [1]).tick = some (mkGame 1 1 [0]) := by
  refine ⟨?_, ?_, by decide, by decide, by decide⟩
  · intro w h r c hw hh hr hc hdim hnd
    rcases hdim with hw2 | hh2
    · have hlr : wrapDec c (w - 1) = wrapInc c (w - 1) := by
        unfold wrapDec wrapInc
        split_ifs <;> omega
      simp [neighborIndexes, hlr] at hnd
    · have hud : wrapDec r (h - 1) = wrapInc r (h - 1) := by
        unfold wrapDec wrapInc
        split_ifs <;> omega
      simp [neighborIndexes, hud] at hnd
  · intro w h r c hw hh hr hc hdim
    rcases hdim with hw1 | hh1
    · have hc0 : c = 0 := by omega
      subst hw1
      subst hc0
      simp [neighborIndexes, wrapDec, wrapInc]
    · have hr0 : r = 0 := by omega
      subst hh1
      subst hr0
      simp [neighborIndexes, wrapDec, wrapInc]

theorem tick_def (g : Game) :
    g.tick =
      if g.cells.length ≠ g.width * g.height ∨
          g.next.length ≠ g.width * g.height then none
      else if g.width = 0 ∨ g.height = 0 then none
      else
        match mapO
            (fun i => stepCell g.cells g.width g.height (i / g.width)
              (i % g.width) i)
            (List.range (g.width * g.height)) with
        | none => none
        | some newCells => some { g with cells := newCells, next := newCells } :=
  rfl

theorem tick_isSome_invariant {g g' : Game} (ht : g.tick = some g') :
    g.Invariant := by
  rw [tick_def] at ht
  split_ifs at ht with h1 h2 <;>
    first
      | exact Option.noConfusion ht
      | (push_neg at h1 h2
         exact ⟨h1.1, h1.2, by omega, by omega⟩)

/-- C3: new establishes the buffer-length and dimension invariant on
success, and every mutating public operation leaves the width, the
height and the lengths of both buffers unchanged, hence preserves the
invariant (final conjunct). The writes reachable through get_mut,
get_row_mut, row_mut and col_mut are modelled by the corresponding
write functions; indexTuple_set is the write through the tuple IndexMut
operator. -/
theorem spec_c3_invariant_preservation :
    (∀ w h g, Game.new w h = some g → g.Invariant) ∧
    (∀ g g' : Game, g.tick = some g' →
      g'.width = g.width ∧ g'.height = g.height ∧ g'.Invariant) ∧
    (∀ g : Game, g.clear.width = g.width ∧ g.clear.height = g.height ∧
      g.clear.cells.length = g.cells.length ∧ g.clear.next = g.next) ∧
    (∀ g : Game, g.invert.width = g.width ∧ g.invert.height = g.height ∧
      g.invert.cells.length = g.cells.length ∧ g.invert.next = g.next) ∧
    (∀ (g : Game) (s : Nat → Bool), (g.fill_random s).width = g.width ∧
      (g.fill_random s).height = g.height ∧
      (g.fill_random s).cells.length = g.cells.length ∧
      (g.fill_random s).next = g.next) ∧
    (∀ (g : Game) r c v g', g.get_mut_write r c v = some g' →
      g'.width = g.width ∧ g'.height = g.height ∧
      g'.cells.length = g.cells.length ∧ g'.next = g.next) ∧
    (∀ (g : Game) r f g', g.get_row_mut_map r f = some g' →
      g'.width = g.width ∧ g'.height = g.height ∧
      g'.cells.length = g.cells.length ∧ g'.next = g.next) ∧
    (∀ (g : Game) c f g', g.col_mut_map c f = some g' →
      g'.width = g.width ∧ g'.height = g.height ∧
      g'.cells.length = g.cells.length ∧ g'.next = g.next) ∧
    (∀ (g : Game) t v g', g.indexTuple_set t v = .ok g' →
      g'.width = g.width ∧ g'.height = g.height ∧
      g'.cells.length = g.cells.length ∧ g'.next = g.next) ∧
    (∀ g g' : Game, g.Invariant → g'.width = g.width → g'.height = g.height →
      g'.cells.length = g.cells.length → g'.next.length = g.next.length →
      g'.Invariant) := by
  refine ⟨?_, ?_, ?_, ?_, ?_, ?_, ?_, ?_, ?_, ?_⟩
  · intro w h g hg
    unfold Game.new checkedMul at hg
    split_ifs at hg with h1 h2 h3 <;>
      first
        | exact Option.noConfusion hg
        | (cases hg
           exact ⟨by simp, by simp, by show 0 < w; omega, by show 0 < h; omega⟩)
  · intro g g' ht
    have hInv := tick_isSome_invariant ht
    obtain ⟨g'', ht', hW, hH, hN, hL, _⟩ := tick_eq_spec g hInv
    rw [ht] at ht'
    cases ht'
    refine ⟨hW, hH, ?_, ?_, ?_, ?_⟩
    · rw [hL, hW, hH]
    · rw [hN, hL, hW, hH]
    · rw [hW]; exact hInv.2.2.1
    · rw [hH]; exact hInv.2.2.2
  · intro g
    exact ⟨rfl, rfl, by simp [Game.clear], rfl⟩
  · intro g
    exact ⟨rfl, rfl, by simp [Game.invert], rfl⟩
  · intro g s
    exact ⟨rfl, rfl, by simp [Game.fill_random], rfl⟩
  · intro g r c v g' hgw
    simp only [Game.get_mut_write] at hgw
    split_ifs at hgw with h1 h2 <;>
      first
        | exact Option.noConfusion hgw
        | (cases hgw; exact ⟨rfl, rfl, by simp, rfl⟩)
  · intro g r f g' hgw
    simp only [Game.get_row_mut_map] at hgw
    split_ifs at hgw with h1 h2 <;>
      first
        | exact Option.noConfusion hgw
        | (cases hgw
           refine ⟨rfl, rfl, ?_, rfl⟩
           simp only [List.length_append, List.length_take, List.length_drop,
             List.length_mapIdx]
           omega)
  · intro g c f g' hgw
    simp only [Game.col_mut_map] at hgw
    split_ifs at hgw with h1 <;>
      first
        | exact Option.noConfusion hgw
        | (cases hgw; exact ⟨rfl, rfl, by simp, rfl⟩)
  · intro g t v g' hgw
    simp only [Game.indexTuple_set] at hgw
    split_ifs at hgw with h1 h2 h3 <;>
      first
        | exact Except.noConfusion hgw
        | (cases hgw; exact ⟨rfl, rfl, by simp, rfl⟩)
  · intro g g' hInv hW hH hC hN
    exact ⟨by rw [hC, hW, hH]; exact hInv.1, by rw [hN, hW, hH]; exact hInv.2.1,
      by rw [hW]; exact hInv.2.2.1, by rw [hH]; exact hInv.2.2.2⟩

/-- Witness for C3: a concrete tick preserving the dimensions and the
invariant of a concrete game. -/
theorem spec_c3_witness :
    (mkGame 2 2 [0, 0, 0, 0]).width = (mkGame 2 2 [1, 0, 0, 1]).width ∧
    (mkGame 2 2 [0, 0, 0, 0]).height = (mkGame 2 2 [1, 0, 0, 1]).height ∧
    (mkGame 2 2 [0, 0, 0, 0]).Invariant :=
  spec_c3_invariant_preservation.2.1 (mkGame 2 2 [1, 0, 0, 1])
    (mkGame 2 2 [0, 0, 0, 0]) (by decide)

/-- C6 counterexample: taking the game of width 2 and height 2 whose
only Alive cell is at row 0, column 1 (flat index 1), get (0, 1) finds
that Alive cell, but indexing by the tuple (0, 1) returns Dead because
the Index implementation destructures the tuple as (col, row) and reads
flat index 1 * 2 + 0 = 2. -/
theorem spec_c6_counterexample :
    (mkGame 2 2 [0, 1, 0, 0]).get 0 1 = some (some Cell.Alive) ∧
    (mkGame 2 2 [0, 1, 0, 0]).indexTuple (0, 1) = .ok Cell.Dead ∧
    Cell.Dead ≠ Cell.Alive :=
  ⟨rfl, rfl, by decide⟩

/-- C6 amended: the tuple index operator destructures its argument as
(col, row): indexing by the tuple (a, b) returns a direct reference to
the cell at flat index b * width + a, which is the cell get (b, a)
returns; when b is at least height it fails with a fatal out-of-bounds
error naming the height dimension and the offending index b, and
otherwise, when a is at least width, with one naming the width
dimension and the offending index a. -/
theorem spec_c6_index_tuple (g : Game) (hInv : g.Invariant) (a b : Nat) :
    (b < g.height → a < g.width →
      g.indexTuple (a, b) = .ok (valAt g b a) ∧
      g.get b a = some (some (valAt g b a))) ∧
    (g.height ≤ b → g.indexTuple (a, b) = .error (.heightOob b g.height)) ∧
    (b < g.height → g.width ≤ a →
      g.indexTuple (a, b) = .error (.widthOob a g.width)) := by
  obtain ⟨h1, h2, hw, hh⟩ := hInv
  refine ⟨?_, ?_, ?_⟩
  · intro hb ha
    have hlt : b * g.width + a < g.cells.length := by
      rw [h1]; exact flat_lt hb ha
    constructor
    · simp only [Game.indexTuple]
      rw [if_neg (by omega), if_neg (by omega), List.getElem?_eq_getElem hlt]
      simp [valAt, List.getD_eq_getElem?_getD, List.getElem?_eq_getElem hlt]
    · simp only [Game.get]
      rw [if_pos ⟨hb, ha⟩, List.getElem?_eq_getElem hlt]
      simp [valAt, List.getD_eq_getElem?_getD, List.getElem?_eq_getElem hlt]
  · intro hb
    simp only [Game.indexTuple]
    rw [if_pos hb]
  · intro hb ha
    simp only [Game.indexTuple]
    rw [if_neg (by omega), if_pos ha]

/-- Witness for C6 at a concrete game and in-range tuple. -/
theorem spec_c6_witness :
    (mkGame 2 2 [0, 1, 0, 0]).indexTuple (1, 0) =
      .ok (valAt (mkGame 2 2 [0, 1, 0, 0]) 0 1) ∧
    (mkGame 2 2 [0, 1, 0, 0]).get 0 1 =
      some (some (valAt (mkGame 2 2 [0, 1, 0, 0]) 0 1)) :=
  (spec_c6_index_tuple (mkGame 2 2 [0, 1, 0, 0]) (by decide) 1 0).1
    (by decide) (by decide)

/-- C7: get and get_mut resolve the same location, never panic, return
None exactly when the row is at least height or the column is at least
width, and otherwise return the cell at flat index row * width + col. -/
theorem spec_c7_get_optional (g : Game) (hInv : g.Invariant) (r c : Nat) :
    g.get_mut r c = g.get r c ∧
    (g.get r c).isSome ∧
    (g.get r c = some none ↔ (g.height ≤ r ∨ g.width ≤ c)) ∧
    (r < g.height → c < g.width → g.get r c = some (some (valAt g r c))) := by
  obtain ⟨h1, h2, hw, hh⟩ := hInv
  have hget : ∀ (hr : r < g.height) (hc : c < g.width),
      g.get r c = some (some (valAt g r c)) := by
    intro hr hc
    have hlt : r * g.width + c < g.cells.length := by
      rw [h1]; exact flat_lt hr hc
    simp only [Game.get]
    rw [if_pos ⟨hr, hc⟩, List.getElem?_eq_getElem hlt]
    simp [valAt, List.getD_eq_getElem?_getD, List.getElem?_eq_getElem hlt]
  by_cases hr : r < g.height
  · by_cases hc : c < g.width
    · refine ⟨rfl, ?_, ?_, fun _ _ => hget hr hc⟩
      · rw [hget hr hc]; rfl
      · rw [hget hr hc]; simp; omega
    · have hnone : g.get r c = some none := by
        simp only [Game.get]; rw [if_neg (by tauto)]
      exact ⟨rfl, by rw [hnone]; rfl, by rw [hnone]; simp; omega,
        fun _ hc2 => absurd hc2 hc⟩
  · have hnone : g.get r c = some none := by
      simp only [Game.get]; rw [if_neg (by tauto)]
    exact ⟨rfl, by rw [hnone]; rfl, by rw [hnone]; simp; omega,
      fun hr2 _ => absurd hr2 hr⟩

/-- Witness for C7 at a concrete game and coordinates. -/
theorem spec_c7_witness :
    (mkGame 2 2 [0, 1, 0, 0]).get_mut 0 1 = (mkGame 2 2 [0, 1, 0, 0]).get 0 1 ∧
    ((mkGame 2 2 [0, 1, 0, 0]).get 0 1).isSome ∧
    ((mkGame 2 2 [0, 1, 0, 0]).get 0 1 = some none ↔
      ((mkGame 2 2 [0, 1, 0, 0]).height ≤ 0 ∨
        (mkGame 2 2 [0, 1, 0, 0]).width ≤ 1)) ∧
    (0 < (mkGame 2 2 [0, 1, 0, 0]).height → 1 < (mkGame 2 2 [0, 1, 0, 0]).width →
      (mkGame 2 2 [0, 1, 0, 0]).get 0 1 =
        some (some (valAt (mkGame 2 2 [0, 1, 0, 0]) 0 1))) :=
  spec_c7_get_optional (mkGame 2 2 [0, 1, 0, 0]) (by decide) 0 1

/-- C9: for an in-range row r, get_row and row produce the same sequence
of exactly width cells, the cells at flat indexes r * width + j in
column order; for an in-range column c, col yields exactly height cells
in row order, the cells at flat indexes c + i * width. -/
theorem spec_c9_views (g : Game) (hInv : g.Invariant) (r c : Nat)
    (hr : r < g.height) (hc : c < g.width) :
    ∃ rowSeq colSeq,
      g.get_row r = some rowSeq ∧ g.row r = some rowSeq ∧
      rowSeq.length = g.width ∧
      (∀ j, j < g.width → rowSeq[j]? = g.cells[r * g.width + j]?) ∧
      g.col c = some colSeq ∧ colSeq.length = g.height ∧
      (∀ i, i < g.height → colSeq[i]? = g.cells[c + i * g.width]?) := by
  obtain ⟨h1, h2, hw, hh⟩ := hInv
  have hmc : g.width * g.height = g.height * g.width := Nat.mul_comm _ _
  have hcond : r * g.width + g.width ≤ g.cells.length := by
    rw [h1]
    have hstep : (r + 1) * g.width ≤ g.height * g.width :=
      Nat.mul_le_mul_right _ (by omega)
    have hring : (r + 1) * g.width = r * g.width + g.width := by ring
    omega
  have hgr : g.get_row r =
      some ((g.cells.drop (r * g.width)).take g.width) := by
    simp only [Game.get_row]
    rw [if_neg (by omega), if_pos hcond]
  have hrowlen : ((g.cells.drop (r * g.width)).take g.width).length =
      g.width := by
    simp only [List.length_take, List.length_drop]
    omega
  have hrowel : ∀ j, j < g.width →
      ((g.cells.drop (r * g.width)).take g.width)[j]? =
        g.cells[r * g.width + j]? := by
    intro j hj
    rw [List.getElem?_take, if_pos hj, List.getElem?_drop]
  have hcol : g.col c = some (stepByAux (g.width - 1) (g.cells.drop c)) := by
    simp only [Game.col]
    rw [if_neg (by omega)]
  have helem : ∀ i, (stepByAux (g.width - 1) (g.cells.drop c))[i]? =
      g.cells[c + i * g.width]? := by
    intro i
    rw [stepByAux_getElem, List.getElem?_drop]
    have hstep : i * (g.width - 1 + 1) = i * g.width := by
      congr 1
      omega
    rw [hstep]
  have hlen : (stepByAux (g.width - 1) (g.cells.drop c)).length = g.height := by
    have hupper : (stepByAux (g.width - 1) (g.cells.drop c)).length ≤
        g.height := by
      apply List.getElem?_eq_none_iff.mp
      rw [helem]
      apply List.getElem?_eq_none
      omega
    have hlow : c + (g.height - 1) * g.width < g.cells.length := by
      rw [h1]
      have := flat_lt (show g.height - 1 < g.height by omega) hc
      omega
    have hsome : (stepByAux (g.width - 1) (g.cells.drop c))[g.height - 1]? =
        some (g.cells[c + (g.height - 1) * g.width]) := by
      rw [helem, List.getElem?_eq_getElem hlow]
    have hnotnone : ¬ ((stepByAux (g.width - 1) (g.cells.drop c)).length ≤
        g.height - 1) := by
      intro hle
      rw [List.getElem?_eq_none_iff.mpr hle] at hsome
      exact Option.noConfusion hsome
    omega
  exact ⟨_, _, hgr, hgr, hrowlen, hrowel, hcol, hlen, fun i _ => helem i⟩

/-- Witness for C9 at a concrete game, row and column. -/
theorem spec_c9_witness :
    ∃ rowSeq colSeq,
      (mkGame 2 3 [0, 1, 1, 0, 1, 1]).get_row 1 = some rowSeq ∧
      (mkGame 2 3 [0, 1, 1, 0, 1, 1]).row 1 = some rowSeq ∧
      rowSeq.length = (mkGame 2 3 [0, 1, 1, 0, 1, 1]).width ∧
      (∀ j, j < (mkGame 2 3 [0, 1, 1, 0, 1, 1]).width →
        rowSeq[j]? =
          (mkGame 2 3 [0, 1, 1, 0, 1, 1]).cells[1 *
            (mkGame 2 3 [0, 1, 1, 0, 1, 1]).width + j]?) ∧
      (mkGame 2 3 [0, 1, 1, 0, 1, 1]).col 1 = some colSeq ∧
      colSeq.length = (mkGame 2 3 [0, 1, 1, 0, 1, 1]).height ∧
      (∀ i, i < (mkGame 2 3 [0, 1, 1, 0, 1, 1]).height →
        colSeq[i]? =
          (mkGame 2 3 [0, 1, 1, 0, 1, 1]).cells[1 +
            i * (mkGame 2 3 [0, 1, 1, 0, 1, 1]).width]?) :=
  spec_c9_views (mkGame 2 3 [0, 1, 1, 0, 1, 1]) (by decide) 1 1
    (by decide) (by decide)

/-- Witness for C10 at concrete dimensions. -/
theorem spec_c10_witness :
    ¬ (neighborIndexes 2 3 1 1).Nodup ∧
      (0 * 1 + 0) ∈ neighborIndexes 1 2 0 0 :=
  ⟨spec_c10_small_grids.1 2 3 1 1 (by decide) (by decide) (by decide)
      (by decide) (Or.inl (by decide)),
    spec_c10_small_grids.2.1 1 2 0 0 (by decide) (by decide) (by decide)
      (by decide) (Or.inl rfl)⟩

end Cgol
